/-
Verification of the Pointer Queue library (ptrqueue.c / ptrqueue.h).

The source is a bounded FIFO ring buffer of `void *` references with
head/tail indices into an array of `array_capacity = count + 1` slots
(one slot permanently reserved to distinguish full from empty), a mutex,
a condition variable and a single `waiting` flag.

Shallow embedding conventions:
- A C pointer value (`void *`) is modelled as `Option Nat`: `none` is the
  C `NULL` pointer, `some n` an abstract non-NULL address (for pool-mode
  objects, `some off` stands for the address `pq->buf + off`).
- All operations run under the queue mutex, so the queue behaves as one
  serialized state machine; each operation is a pure function on the
  state.  The only concurrency-visible inputs are the `wait` flag of
  `pq_pop` and, for the non-blocking path, whether `pthread_mutex_trylock`
  finds the lock contended; the latter is passed as an explicit boolean.
- `pq_pop` with `wait = 1` on an empty queue parks on the condition
  variable; in the sequential model this is the distinguished outcome
  `PopOutcome.blocked` (the state keeps `waiting = true`, exactly the
  state at the moment `pthread_cond_wait` is entered).
- C `__u32` index arithmetic never overflows here because indices stay
  below `array_capacity`; the code avoids `%` by a conditional subtract,
  which is translated literally.
- `errno` values: the code uses `EINVAL` (22) and `ENOMEM` (12); a result
  field `err : Option Nat` records whether the call set `errno`
  (`none` = not touched).  `pq_push` failing with `ENOMEM` is the
  spec's `QueueFull`; `pq_pop` returning `NULL` without touching `errno`
  covers both the spec's `Empty` and `WouldBlock`.
- Allocation success of the three `calloc` calls in `pq_init` is an
  explicit oracle (three booleans), since the C allocator is external.
  The struct fields `buf` (pool backing region pointer) and the
  pthread mutex/cond initialization are modelled by the booleans
  `buf_alloc` and `mtx_init` so that a partially constructed handle
  is observable.
-/
import Mathlib

set_option linter.unusedVariables false
set_option maxRecDepth 100000

namespace PtrQ

/-- Linux errno EINVAL. -/
def EINVAL : Nat := 22

/-- Linux errno ENOMEM (the code reports a full queue with this value). -/
def ENOMEM : Nat := 12

/-- A C `void *` value: `none` is `NULL`. -/
abbrev Ptr := Option Nat

/-- `struct ptr_queue` (ptrqueue.h).  `data` is the slot array of length
`array_capacity`; `waiting` is the consumer-waiting flag; `buf_alloc`
records whether the pool backing region `buf` is allocated and `mtx_init`
whether `pthread_mutex_init`/`pthread_cond_init` have run. -/
structure PtrQueue where
  data : List Ptr
  head : Nat
  tail : Nat
  array_capacity : Nat
  user_capacity : Nat
  waiting : Bool
  buf_alloc : Bool
  mtx_init : Bool
deriving DecidableEq

/-- Result of `pq_push`: the C return value `rv` (0 success, 1 error),
the `errno` set by the call (if any), and the queue state after. -/
structure PushResult where
  rv : Nat
  err : Option Nat
  st : PtrQueue
deriving DecidableEq

/-- `pq_push` (ptrqueue.c): compute `new_tail = tail + 1`, wrap by
conditional subtract, fail with `ENOMEM` if `new_tail == head`
(queue full, no mutation), otherwise store `ptr` at the current tail
and commit `tail = new_tail`.  The conditional `pthread_cond_signal`
does not change the queue state. -/
def pq_push (pq : PtrQueue) (ptr : Ptr) : PushResult :=
  let nt0 := pq.tail + 1
  let new_tail := if pq.array_capacity ≤ nt0 then nt0 - pq.array_capacity else nt0
  if new_tail = pq.head then
    { rv := 1, err := some ENOMEM, st := pq }
  else
    { rv := 0, err := none,
      st := { pq with data := pq.data.set pq.tail ptr, tail := new_tail } }

/-- What a `pq_pop` call does: `ret p` means the function returned the
pointer `p` (`ret none` is the C `NULL` return, produced by the
trylock-contended path, the non-blocking empty path, and also by a
successful dequeue of a stored `NULL`); `blocked` means the call parked
in `pthread_cond_wait`. -/
inductive PopOutcome where
  | ret (p : Ptr)
  | blocked
deriving DecidableEq

/-- Result of `pq_pop`: outcome and post state. -/
structure PopResult where
  out : PopOutcome
  st : PtrQueue
deriving DecidableEq

/-- `pq_pop` (ptrqueue.c).  `wait = false` attempts `pthread_mutex_trylock`
and returns `NULL` immediately when the lock is contended (`contended`
oracle); on an empty queue it returns `NULL` (no `errno`); with
`wait = true` on an empty queue it sets `waiting`, re-checks emptiness and
parks on the condition variable.  Otherwise it reads `data[head]`, clears
the slot, and advances `head` with the conditional-subtract wrap. -/
def pq_pop (pq : PtrQueue) (wait : Bool) (contended : Bool) : PopResult :=
  if wait = false ∧ contended = true then
    { out := .ret none, st := pq }
  else if pq.head = pq.tail then
    if wait = false then
      { out := .ret none, st := pq }
    else
      { out := .blocked, st := { pq with waiting := true } }
  else
    let rv := pq.data.getD pq.head none
    let d1 := pq.data.set pq.head none
    let h0 := pq.head + 1
    let new_head := if pq.array_capacity ≤ h0 then h0 - pq.array_capacity else h0
    { out := .ret rv, st := { pq with data := d1, head := new_head } }

/-- `pq_len` (ptrqueue.c): length from the two indices alone.
`rv` is initialized to 0 and the three cases are `else if` chains,
so a state matching none of them (impossible by trichotomy) yields 0. -/
def pq_len (pq : PtrQueue) : Nat :=
  if pq.head = pq.tail then 0
  else if pq.head < pq.tail then pq.tail - pq.head
  else if pq.tail < pq.head then (pq.array_capacity - pq.head) + pq.tail
  else 0

/-- `pq_empty` (ptrqueue.c): 1 if `head == tail`, else 0. -/
def pq_empty (pq : PtrQueue) : Nat :=
  if pq.head = pq.tail then 1 else 0

/-- Result of `pq_init`: the returned handle (`none` models returning the
C `NULL` pointer) and the `errno` set during the call (if any). -/
structure InitResult where
  ret : Option PtrQueue
  err : Option Nat
deriving DecidableEq

/-- The queue struct right after `calloc` plus the field assignments of
STEP 2/3 of `pq_init`: zeroed indices and flags, slot array of
`count + 1` NULL entries. -/
def initialState (count : Nat) : PtrQueue :=
  { data := List.replicate (count + 1) none
    head := 0
    tail := 0
    array_capacity := count + 1
    user_capacity := count
    waiting := false
    buf_alloc := false
    mtx_init := false }

/-- The pool-fill loop of `pq_init` STEP 4: for `i = 0 .. count-1` push
the address `&pq->buf[i*obj_size]`, modelled as the offset `i * obj_size`. -/
def poolFill (pq : PtrQueue) (count obj_size : Nat) : PtrQueue :=
  (List.range count).foldl (fun q i => (pq_push q (some (i * obj_size))).st) pq

/-- `pq_init` (ptrqueue.c) with an allocation oracle: `alloc_pq`,
`alloc_data`, `alloc_buf` tell whether the three `calloc` calls succeed.
Control flow is translated literally; in particular, when the pool
backing-region allocation fails the code does `errno = ENOMEM; goto end;`
and `end:` returns the current (non-NULL, partially constructed) `pq`
without freeing it and without initializing the mutex. -/
def pq_init (count obj_size : Nat) (alloc_pq alloc_data alloc_buf : Bool) :
    InitResult :=
  if count = 0 then
    { ret := none, err := some EINVAL }
  else if alloc_pq = false then
    { ret := none, err := some ENOMEM }
  else if alloc_data = false then
    { ret := none, err := some ENOMEM }
  else
    let pq0 := initialState count
    if 0 < obj_size then
      if alloc_buf = false then
        { ret := some pq0, err := some ENOMEM }
      else
        let pq1 := poolFill { pq0 with buf_alloc := true } count obj_size
        { ret := some { pq1 with mtx_init := true }, err := none }
    else
      { ret := some { pq0 with mtx_init := true }, err := none }

/-- The state a successful non-pool `pq_init count 0` hands back. -/
def mkFresh (count : Nat) : PtrQueue :=
  { initialState count with mtx_init := true }

/-- State invariant of the data model: `array_capacity = user_capacity + 1`
with positive user capacity, both indices strictly below
`array_capacity`, and the slot array of exactly `array_capacity` entries. -/
def Inv (pq : PtrQueue) : Prop :=
  pq.array_capacity = pq.user_capacity + 1 ∧
  0 < pq.user_capacity ∧
  pq.head < pq.array_capacity ∧
  pq.tail < pq.array_capacity ∧
  pq.data.length = pq.array_capacity

instance (pq : PtrQueue) : Decidable (Inv pq) := by
  unfold Inv; infer_instance

/-- The live window of the ring, in dequeue order: the circular index
range `[head, tail)` of the slot array. -/
def liveList (pq : PtrQueue) : List Ptr :=
  if pq.head ≤ pq.tail then (pq.data.drop pq.head).take (pq.tail - pq.head)
  else pq.data.drop pq.head ++ pq.data.take pq.tail

/-- One serialized operation on the queue: a push of a pointer, or a pop
with its `wait` flag and (for the non-blocking path) the contention
oracle. -/
inductive Op where
  | push (p : Ptr)
  | pop (wait : Bool) (contended : Bool)
deriving DecidableEq

/-- Trace accumulator: current state, successfully pushed values in push
order, and values returned by completed dequeues in pop order. -/
structure TraceResult where
  st : PtrQueue
  pushes : List Ptr
  pops : List Ptr
deriving DecidableEq

/-- Run one operation, recording a push when `pq_push` returns 0 and a pop
when the call actually dequeues (lock acquired and queue non-empty). -/
def stepOp (t : TraceResult) (op : Op) : TraceResult :=
  match op with
  | .push p =>
    let r := pq_push t.st p
    if r.rv = 0 then { st := r.st, pushes := t.pushes ++ [p], pops := t.pops }
    else { t with st := r.st }
  | .pop w c =>
    let r := pq_pop t.st w c
    if (w = true ∨ c = false) ∧ t.st.head ≠ t.st.tail then
      match r.out with
      | .ret p => { st := r.st, pushes := t.pushes, pops := t.pops ++ [p] }
      | .blocked => { t with st := r.st }
    else { t with st := r.st }

/-- Run a list of serialized operations from a state. -/
def runTrace (pq : PtrQueue) (ops : List Op) : TraceResult :=
  ops.foldl stepOp { st := pq, pushes := [], pops := [] }

/-- Iterated pushes (the testbench `fill` pattern): the list of `rv`
return codes in order, and the final state. -/
def pushResults : PtrQueue → List Ptr → List Nat × PtrQueue
  | pq, [] => ([], pq)
  | pq, v :: vs =>
    let r := pq_push pq v
    let rest := pushResults r.st vs
    (r.rv :: rest.1, rest.2)

/-- Iterated non-blocking, uncontended pops (the testbench `empty`
pattern): the list of outcomes in order, and the final state. -/
def popResults : PtrQueue → Nat → List PopOutcome × PtrQueue
  | pq, 0 => ([], pq)
  | pq, k + 1 =>
    let r := pq_pop pq false false
    let rest := popResults r.st k
    (r.out :: rest.1, rest.2)

/-- The spec wording of `length()`: `head == tail → 0`;
`tail > head → tail - head`; `tail < head → (array_capacity - head) + tail`
(the last case is the unconditional else of the spec text). -/
def spec_len (pq : PtrQueue) : Nat :=
  if pq.head = pq.tail then 0
  else if pq.tail > pq.head then pq.tail - pq.head
  else (pq.array_capacity - pq.head) + pq.tail

/-- The concrete scenario pushes: values `1..10` as cast-to-pointer
integers. -/
def opsPush10 : List Op :=
  (List.range 10).map (fun i => Op.push (some (i + 1)))

/-- The concrete scenario: push `1..10`, then ten non-blocking,
uncontended pops. -/
def ops10 : List Op :=
  opsPush10 ++ List.replicate 10 (Op.pop false false)

end PtrQ

namespace PtrQ

/-- The conditional-subtract wrap used by the code equals `% c` for
in-range indices. -/
theorem condSub_eq_mod (t c : Nat) (h : t < c) :
    (if c ≤ t + 1 then t + 1 - c else t + 1) = (t + 1) % c := by
  rcases Nat.lt_or_ge (t + 1) c with h1 | h1
  · rw [if_neg (by omega), Nat.mod_eq_of_lt h1]
  · have h2 : t + 1 = c := Nat.le_antisymm h h1
    rw [if_pos h1, h2, Nat.sub_self, Nat.mod_self]

/-- Setting index `k` and taking `k + 1` elements appends the new value
to the prefix. -/
theorem set_take_succ (l : List Ptr) (k : Nat) (a : Ptr) (hk : k < l.length) :
    (l.set k a).take (k + 1) = l.take k ++ [a] := by
  rw [List.take_succ, List.set_take]
  rw [List.set_eq_of_length_le (by simp), List.getElem?_set_self hk]
  simp

/-- Setting the last position of a list rewrites it as prefix plus the
new value. -/
theorem set_last_eq (l : List Ptr) (k : Nat) (a : Ptr) (hk : k + 1 = l.length) :
    l.set k a = l.take k ++ [a] := by
  have h := set_take_succ l k a (by omega)
  rw [← h]
  exact (List.take_of_length_le (by simp [← hk])).symm

/-- `pq_push` phrased with `(tail + 1) % array_capacity`, the candidate
index of the design description. -/
theorem pq_push_eq (pq : PtrQueue) (p : Ptr) (hlt : pq.tail < pq.array_capacity) :
    pq_push pq p =
      if (pq.tail + 1) % pq.array_capacity = pq.head then
        { rv := 1, err := some ENOMEM, st := pq }
      else
        { rv := 0, err := none,
          st := { pq with data := pq.data.set pq.tail p,
                          tail := (pq.tail + 1) % pq.array_capacity } } := by
  simp only [pq_push]
  rw [condSub_eq_mod pq.tail pq.array_capacity hlt]

/-- `pq_push` preserves the state invariant. -/
theorem inv_push (pq : PtrQueue) (p : Ptr) (h : Inv pq) : Inv (pq_push pq p).st := by
  obtain ⟨h1, h2, h3, h4, h5⟩ := h
  rw [pq_push_eq pq p h4]
  split
  · exact ⟨h1, h2, h3, h4, h5⟩
  · exact ⟨h1, h2, h3, Nat.mod_lt _ (by omega), by simpa using h5⟩

/-- `pq_pop` preserves the state invariant. -/
theorem inv_pop (pq : PtrQueue) (w c : Bool) (h : Inv pq) : Inv (pq_pop pq w c).st := by
  obtain ⟨h1, h2, h3, h4, h5⟩ := h
  simp only [pq_pop]
  split
  · exact ⟨h1, h2, h3, h4, h5⟩
  · split
    · split
      · exact ⟨h1, h2, h3, h4, h5⟩
      · exact ⟨h1, h2, h3, h4, h5⟩
    · refine ⟨h1, h2, ?_, h4, by simpa using h5⟩
      split
      · show pq.head + 1 - pq.array_capacity < pq.array_capacity
        omega
      · show pq.head + 1 < pq.array_capacity
        omega

/-- Pushing onto a full queue does not change the state. -/
theorem push_full_st (pq : PtrQueue) (p : Ptr) (hlt : pq.tail < pq.array_capacity)
    (hf : (pq.tail + 1) % pq.array_capacity = pq.head) :
    (pq_push pq p).rv = 1 ∧ (pq_push pq p).err = some ENOMEM ∧ (pq_push pq p).st = pq := by
  rw [pq_push_eq pq p hlt, if_pos hf]
  exact ⟨rfl, rfl, rfl⟩

/-- `pq_len` is zero exactly on `head = tail`. -/
theorem pq_len_zero_iff (pq : PtrQueue) (h : Inv pq) :
    pq_len pq = 0 ↔ pq.head = pq.tail := by
  obtain ⟨h1, h2, h3, h4, h5⟩ := h
  unfold pq_len
  split_ifs <;> omega

/-- `pq_len` never exceeds the advertised capacity. -/
theorem pq_len_le (pq : PtrQueue) (h : Inv pq) : pq_len pq ≤ pq.user_capacity := by
  obtain ⟨h1, h2, h3, h4, h5⟩ := h
  unfold pq_len
  split_ifs <;> omega

/-- `pq_len` hits the advertised capacity exactly when the push candidate
index collides with `head` (the full test of `pq_push`). -/
theorem pq_len_full_iff (pq : PtrQueue) (h : Inv pq) :
    pq_len pq = pq.user_capacity ↔ (pq.tail + 1) % pq.array_capacity = pq.head := by
  obtain ⟨h1, h2, h3, h4, h5⟩ := h
  rw [← condSub_eq_mod pq.tail pq.array_capacity h4]
  unfold pq_len
  split_ifs <;> omega

/-- The length of the live window is what `pq_len` computes. -/
theorem length_liveList (pq : PtrQueue) (h : Inv pq) :
    (liveList pq).length = pq_len pq := by
  obtain ⟨h1, h2, h3, h4, h5⟩ := h
  unfold liveList pq_len
  split_ifs <;> simp [List.length_take, List.length_drop, h5] <;> omega

/-- The live window is empty exactly on `head = tail`. -/
theorem liveList_nil_iff (pq : PtrQueue) (h : Inv pq) :
    liveList pq = [] ↔ pq.head = pq.tail := by
  rw [← List.length_eq_zero, length_liveList pq h, pq_len_zero_iff pq h]

end PtrQ

namespace PtrQ

theorem liveList_le (pq : PtrQueue) (hle : pq.head ≤ pq.tail) :
    liveList pq = (pq.data.drop pq.head).take (pq.tail - pq.head) := by
  rw [liveList, if_pos hle]

theorem liveList_gt (pq : PtrQueue) (hgt : pq.tail < pq.head) :
    liveList pq = pq.data.drop pq.head ++ pq.data.take pq.tail := by
  rw [liveList, if_neg (by omega)]

/-- A failed `pq_push` leaves the state unchanged. -/
theorem push_fail_st (pq : PtrQueue) (p : Ptr) (hlt : pq.tail < pq.array_capacity)
    (hs : (pq_push pq p).rv ≠ 0) :
    (pq_push pq p).st = pq := by
  rw [pq_push_eq pq p hlt] at hs ⊢
  by_cases hf : (pq.tail + 1) % pq.array_capacity = pq.head
  · rw [if_pos hf]
  · rw [if_neg hf] at hs
    exact absurd rfl hs

/-- A successful `pq_push` appends the pushed pointer to the live window. -/
theorem push_liveList (pq : PtrQueue) (p : Ptr) (h : Inv pq)
    (hs : (pq_push pq p).rv = 0) :
    liveList (pq_push pq p).st = liveList pq ++ [p] := by
  obtain ⟨h1, h2, h3, h4, h5⟩ := h
  rw [pq_push_eq pq p h4] at hs ⊢
  by_cases hf : (pq.tail + 1) % pq.array_capacity = pq.head
  · rw [if_pos hf] at hs
    exact absurd hs (by simp)
  · rw [if_neg hf] at hs ⊢
    rcases Nat.lt_or_ge (pq.tail + 1) pq.array_capacity with hc | hc
    · have hm : (pq.tail + 1) % pq.array_capacity = pq.tail + 1 := Nat.mod_eq_of_lt hc
      rw [hm] at hf ⊢
      rcases Nat.lt_or_ge pq.tail pq.head with hht | hht
      · have hlt : pq.tail + 1 < pq.head := by omega
        rw [liveList_gt
            { pq with data := pq.data.set pq.tail p, tail := pq.tail + 1 } hlt,
          liveList_gt pq hht]
        show (pq.data.set pq.tail p).drop pq.head ++ (pq.data.set pq.tail p).take (pq.tail + 1) =
          (pq.data.drop pq.head ++ pq.data.take pq.tail) ++ [p]
        rw [List.drop_set, if_pos (by omega), set_take_succ _ _ _ (by omega),
          List.append_assoc]
      · rw [liveList_le
            { pq with data := pq.data.set pq.tail p, tail := pq.tail + 1 }
            (by omega : pq.head ≤ pq.tail + 1),
          liveList_le pq hht]
        show ((pq.data.set pq.tail p).drop pq.head).take (pq.tail + 1 - pq.head) =
          (pq.data.drop pq.head).take (pq.tail - pq.head) ++ [p]
        rw [List.drop_set, if_neg (by omega)]
        have he : pq.tail + 1 - pq.head = (pq.tail - pq.head) + 1 := by omega
        rw [he]
        exact set_take_succ _ _ _ (by simp [h5]; omega)
    · have hce : pq.tail + 1 = pq.array_capacity := by omega
      have hm : (pq.tail + 1) % pq.array_capacity = 0 := by
        rw [hce, Nat.mod_self]
      rw [hm] at hf ⊢
      have hht : pq.head ≤ pq.tail := by omega
      have hh0 : 0 < pq.head := by
        rcases Nat.eq_zero_or_pos pq.head with h0 | h0
        · exact absurd h0.symm hf
        · exact h0
      rw [liveList_gt
          { pq with data := pq.data.set pq.tail p, tail := 0 } hh0,
        liveList_le pq hht]
      show (pq.data.set pq.tail p).drop pq.head ++ (pq.data.set pq.tail p).take 0 =
        (pq.data.drop pq.head).take (pq.tail - pq.head) ++ [p]
      rw [List.take_zero, List.append_nil, List.drop_set, if_neg (by omega)]
      exact set_last_eq _ _ _ (by simp [h5]; omega)

/-- A dequeue (`pq_pop` with the lock acquired and a non-empty queue)
returns the slot at `head` and removes the front of the live window. -/
theorem pop_liveList (pq : PtrQueue) (w c : Bool) (h : Inv pq)
    (hne : pq.head ≠ pq.tail) (hl : ¬(w = false ∧ c = true)) :
    (pq_pop pq w c).out = PopOutcome.ret (pq.data.getD pq.head none) ∧
    liveList pq = pq.data.getD pq.head none :: liveList (pq_pop pq w c).st := by
  obtain ⟨h1, h2, h3, h4, h5⟩ := h
  have hh : pq.head < pq.data.length := by omega
  have hv : pq.data.getD pq.head none = pq.data[pq.head] := by
    rw [List.getD_eq_getElem?_getD, List.getElem?_eq_getElem hh, Option.getD_some]
  simp only [pq_pop]
  rw [if_neg hl, if_neg hne]
  refine ⟨rfl, ?_⟩
  rcases Nat.lt_or_ge (pq.head + 1) pq.array_capacity with hc | hc
  · rw [if_neg (by omega : ¬pq.array_capacity ≤ pq.head + 1)]
    rcases Nat.lt_or_ge pq.head pq.tail with hht | hht
    · rw [liveList_le pq (by omega),
        liveList_le
          { pq with data := pq.data.set pq.head none, head := pq.head + 1 }
          (by omega : pq.head + 1 ≤ pq.tail)]
      show (pq.data.drop pq.head).take (pq.tail - pq.head) =
        pq.data.getD pq.head none ::
          ((pq.data.set pq.head none).drop (pq.head + 1)).take (pq.tail - (pq.head + 1))
      rw [List.drop_set, if_pos (by omega), hv, List.drop_eq_getElem_cons hh]
      have he : pq.tail - pq.head = (pq.tail - (pq.head + 1)) + 1 := by omega
      rw [he, List.take_succ_cons]
    · have hht' : pq.tail < pq.head := by omega
      rw [liveList_gt pq hht',
        liveList_gt
          { pq with data := pq.data.set pq.head none, head := pq.head + 1 }
          (by omega : pq.tail < pq.head + 1)]
      show pq.data.drop pq.head ++ pq.data.take pq.tail =
        pq.data.getD pq.head none ::
          ((pq.data.set pq.head none).drop (pq.head + 1) ++ (pq.data.set pq.head none).take pq.tail)
      rw [List.drop_set, if_pos (by omega), List.set_take,
        List.set_eq_of_length_le (by simp; omega), hv, List.drop_eq_getElem_cons hh,
        List.cons_append]
  · rw [if_pos hc]
    have hht' : pq.tail < pq.head := by omega
    have hz : pq.head + 1 - pq.array_capacity = 0 := by omega
    rw [hz, liveList_gt pq hht',
      liveList_le
        { pq with data := pq.data.set pq.head none, head := 0 }
        (Nat.zero_le pq.tail)]
    show pq.data.drop pq.head ++ pq.data.take pq.tail =
      pq.data.getD pq.head none ::
        ((pq.data.set pq.head none).drop 0).take (pq.tail - 0)
    rw [List.drop_zero, Nat.sub_zero, List.set_take,
      List.set_eq_of_length_le (by simp; omega), hv, List.drop_eq_getElem_cons hh]
    have hnil : pq.data.drop (pq.head + 1) = [] := List.drop_eq_nil_of_le (by omega)
    rw [hnil, List.cons_append, List.nil_append]

/-- `pq_pop` without an actual dequeue (contended trylock, or empty
queue) does not change the live window. -/
theorem pop_noop_liveList (pq : PtrQueue) (w c : Bool)
    (hng : (w = false ∧ c = true) ∨ pq.head = pq.tail) :
    liveList (pq_pop pq w c).st = liveList pq := by
  simp only [pq_pop]
  by_cases hl : w = false ∧ c = true
  · rw [if_pos hl]
  · rcases hng with h | h
    · exact absurd h hl
    · rw [if_neg hl, if_pos h]
      split
      · rfl
      · rfl

end PtrQ

namespace PtrQ

/-- One trace step preserves the invariant, and the conservation
equation: popped values followed by the live window equal the initial
live window followed by pushed values. -/
theorem stepOp_inv (pq0 : PtrQueue) (t : TraceResult) (op : Op)
    (h : Inv t.st ∧ t.pops ++ liveList t.st = liveList pq0 ++ t.pushes) :
    Inv (stepOp t op).st ∧
      (stepOp t op).pops ++ liveList (stepOp t op).st =
        liveList pq0 ++ (stepOp t op).pushes := by
  obtain ⟨hi, he⟩ := h
  cases op with
  | push p =>
    simp only [stepOp]
    by_cases hs : (pq_push t.st p).rv = 0
    · rw [if_pos hs]
      refine ⟨inv_push t.st p hi, ?_⟩
      show t.pops ++ liveList (pq_push t.st p).st = liveList pq0 ++ (t.pushes ++ [p])
      rw [push_liveList t.st p hi hs, ← List.append_assoc, he, List.append_assoc]
    · rw [if_neg hs]
      have hst := push_fail_st t.st p hi.2.2.2.1 hs
      show Inv (pq_push t.st p).st ∧
        t.pops ++ liveList (pq_push t.st p).st = liveList pq0 ++ t.pushes
      rw [hst]
      exact ⟨hi, he⟩
  | pop w c =>
    simp only [stepOp]
    by_cases hg : (w = true ∨ c = false) ∧ t.st.head ≠ t.st.tail
    · rw [if_pos hg]
      have hl : ¬(w = false ∧ c = true) := by
        rcases hg.1 with h | h <;> simp [h]
      obtain ⟨ho, hlive⟩ := pop_liveList t.st w c hi hg.2 hl
      rw [ho]
      refine ⟨inv_pop t.st w c hi, ?_⟩
      show (t.pops ++ [t.st.data.getD t.st.head none]) ++ liveList (pq_pop t.st w c).st =
        liveList pq0 ++ t.pushes
      rw [List.append_assoc, List.singleton_append, ← hlive, he]
    · rw [if_neg hg]
      have hng : (w = false ∧ c = true) ∨ t.st.head = t.st.tail := by
        by_cases h1 : w = false ∧ c = true
        · exact Or.inl h1
        · right
          by_contra hne
          exact hg ⟨by cases w <;> cases c <;> simp_all, hne⟩
      show Inv (pq_pop t.st w c).st ∧
        t.pops ++ liveList (pq_pop t.st w c).st = liveList pq0 ++ t.pushes
      rw [pop_noop_liveList t.st w c hng]
      exact ⟨inv_pop t.st w c hi, he⟩

theorem foldl_stepOp_inv (pq0 : PtrQueue) :
    ∀ (ops : List Op) (t : TraceResult),
      (Inv t.st ∧ t.pops ++ liveList t.st = liveList pq0 ++ t.pushes) →
      Inv (ops.foldl stepOp t).st ∧
        (ops.foldl stepOp t).pops ++ liveList (ops.foldl stepOp t).st =
          liveList pq0 ++ (ops.foldl stepOp t).pushes
  | [], t, h => by simpa using h
  | op :: ops, t, h => by
    rw [List.foldl_cons]
    exact foldl_stepOp_inv pq0 ops (stepOp t op) (stepOp_inv pq0 t op h)

/-- Master trace invariant: from any state satisfying `Inv`, after any
serialized operation sequence the invariant still holds and
pops ++ live window = initial live window ++ pushes. -/
theorem runTrace_inv (pq0 : PtrQueue) (ops : List Op) (h : Inv pq0) :
    Inv (runTrace pq0 ops).st ∧
      (runTrace pq0 ops).pops ++ liveList (runTrace pq0 ops).st =
        liveList pq0 ++ (runTrace pq0 ops).pushes := by
  exact foldl_stepOp_inv pq0 ops { st := pq0, pushes := [], pops := [] }
    (by simpa using h)

/-- A fresh queue from `pq_init count 0` satisfies the invariant. -/
theorem inv_mkFresh (count : Nat) (hc : 0 < count) : Inv (mkFresh count) := by
  refine ⟨rfl, hc, Nat.succ_pos count, Nat.succ_pos count, ?_⟩
  simp [mkFresh, initialState]

/-- A fresh queue has an empty live window. -/
theorem liveList_mkFresh (count : Nat) : liveList (mkFresh count) = [] := by
  simp [liveList, mkFresh, initialState]

/-- Successful non-pool `pq_init` returns exactly the fresh state. -/
theorem pq_init_zero (count : Nat) (hc : 0 < count) (b : Bool) :
    pq_init count 0 true true b = { ret := some (mkFresh count), err := none } := by
  simp only [pq_init]
  rw [if_neg (by omega)]
  rfl

end PtrQ

namespace PtrQ

/-- `pq_push` never changes `user_capacity`. -/
theorem push_uc (pq : PtrQueue) (p : Ptr) :
    (pq_push pq p).st.user_capacity = pq.user_capacity := by
  simp only [pq_push]
  split <;> split <;> rfl

/-- `pq_pop` never changes `user_capacity`. -/
theorem pop_uc (pq : PtrQueue) (w c : Bool) :
    (pq_pop pq w c).st.user_capacity = pq.user_capacity := by
  simp only [pq_pop]
  split
  · rfl
  · split
    · split <;> rfl
    · rfl

theorem stepOp_uc (t : TraceResult) (op : Op) :
    (stepOp t op).st.user_capacity = t.st.user_capacity := by
  cases op with
  | push p =>
    simp only [stepOp]
    split
    · exact push_uc t.st p
    · exact push_uc t.st p
  | pop w c =>
    simp only [stepOp]
    split
    · split
      · exact pop_uc t.st w c
      · exact pop_uc t.st w c
    · exact pop_uc t.st w c

theorem foldl_stepOp_uc : ∀ (ops : List Op) (t : TraceResult),
    (ops.foldl stepOp t).st.user_capacity = t.st.user_capacity
  | [], t => rfl
  | op :: ops, t => by
    rw [List.foldl_cons, foldl_stepOp_uc ops (stepOp t op), stepOp_uc]

theorem runTrace_uc (pq0 : PtrQueue) (ops : List Op) :
    (runTrace pq0 ops).st.user_capacity = pq0.user_capacity :=
  foldl_stepOp_uc ops { st := pq0, pushes := [], pops := [] }

/-- While the queue has spare capacity every push in a row succeeds
(`rv = 0`), and the pushed values are appended to the live window. -/
theorem pushResults_ok : ∀ (vs : List Ptr) (pq : PtrQueue), Inv pq →
    (liveList pq).length + vs.length ≤ pq.user_capacity →
    (pushResults pq vs).1 = List.replicate vs.length 0 ∧
    Inv (pushResults pq vs).2 ∧
    liveList (pushResults pq vs).2 = liveList pq ++ vs ∧
    (pushResults pq vs).2.user_capacity = pq.user_capacity
  | [], pq, hi, hle =>
    ⟨rfl, hi, by show liveList pq = liveList pq ++ []; simp, rfl⟩
  | v :: vs, pq, hi, hle => by
    simp only [List.length_cons] at hle
    have hrv : (pq_push pq v).rv = 0 := by
      rw [pq_push_eq pq v hi.2.2.2.1]
      by_cases hf : (pq.tail + 1) % pq.array_capacity = pq.head
      · exfalso
        have hfull := (pq_len_full_iff pq hi).2 hf
        have hlen := length_liveList pq hi
        omega
      · rw [if_neg hf]
    have hlive := push_liveList pq v hi hrv
    have hinv := inv_push pq v hi
    have huc := push_uc pq v
    have ih := pushResults_ok vs (pq_push pq v).st hinv (by
      rw [hlive, huc, List.length_append, List.length_singleton]
      omega)
    obtain ⟨i1, i2, i3, i4⟩ := ih
    refine ⟨?_, i2, ?_, ?_⟩
    · show (pq_push pq v).rv :: (pushResults (pq_push pq v).st vs).1 =
        List.replicate (vs.length + 1) 0
      rw [hrv, i1, List.replicate_succ]
    · show liveList (pushResults (pq_push pq v).st vs).2 = liveList pq ++ (v :: vs)
      rw [i3, hlive, List.append_assoc, List.singleton_append]
    · show (pushResults (pq_push pq v).st vs).2.user_capacity = pq.user_capacity
      rw [i4, huc]

/-- A non-blocking, uncontended pop of an empty queue returns `NULL` and
leaves the state unchanged (the `Empty` outcome). -/
theorem pop_empty_out (pq : PtrQueue) (he : pq.head = pq.tail) :
    (pq_pop pq false false).out = PopOutcome.ret none ∧
    (pq_pop pq false false).st = pq := by
  simp [pq_pop, he]

/-- Draining a queue holding `n` live entries with `n` non-blocking pops
returns exactly the live window, in order. -/
theorem popResults_ok : ∀ (n : Nat) (pq : PtrQueue), Inv pq →
    (liveList pq).length = n →
    (popResults pq n).1 = (liveList pq).map PopOutcome.ret ∧
    Inv (popResults pq n).2 ∧
    liveList (popResults pq n).2 = []
  | 0, pq, hi, hl => by
    have h0 : liveList pq = [] := List.length_eq_zero.mp hl
    exact ⟨by rw [h0]; rfl, hi, h0⟩
  | n + 1, pq, hi, hl => by
    have hne : pq.head ≠ pq.tail := by
      intro h
      rw [(liveList_nil_iff pq hi).mpr h] at hl
      simp at hl
    obtain ⟨ho, hlive⟩ := pop_liveList pq false false hi hne (by simp)
    have hinv := inv_pop pq false false hi
    have hlen : (liveList (pq_pop pq false false).st).length = n := by
      have hc := congrArg List.length hlive
      rw [hl] at hc
      simp at hc
      omega
    obtain ⟨i1, i2, i3⟩ := popResults_ok n (pq_pop pq false false).st hinv hlen
    refine ⟨?_, i2, i3⟩
    show (pq_pop pq false false).out :: (popResults (pq_pop pq false false).st n).1 =
      (liveList pq).map PopOutcome.ret
    rw [ho, i1, hlive, List.map_cons]

/-- The pool-fill loop is the iterated-push run on the mapped offsets. -/
theorem poolFill_eq_pushResults (s : Nat) : ∀ (l : List Nat) (pq : PtrQueue),
    l.foldl (fun q i => (pq_push q (some (i * s))).st) pq =
    (pushResults pq (l.map (fun i => some (i * s)))).2
  | [], pq => rfl
  | i :: l, pq => by
    rw [List.foldl_cons, List.map_cons]
    exact poolFill_eq_pushResults s l (pq_push pq (some (i * s))).st

end PtrQ

namespace PtrQ

/-- C1: for a queue created with `pq_init(count = N, obj_size = 0)`,
exactly `N` consecutive pushes succeed (`rv = 0` each time) and the
`(N+1)`-th push (no intervening pop) fails with the queue-full error
(`rv = 1`, `errno = ENOMEM`, the code's `QueueFull`). -/
theorem C1_capacity (N : Nat) (hN : 0 < N) (vs : List Ptr) (hlen : vs.length = N)
    (v : Ptr) :
    (pushResults (mkFresh N) vs).1 = List.replicate N 0 ∧
    (pq_push (pushResults (mkFresh N) vs).2 v).rv = 1 ∧
    (pq_push (pushResults (mkFresh N) vs).2 v).err = some ENOMEM := by
  have hi := inv_mkFresh N hN
  have hle : (liveList (mkFresh N)).length + vs.length ≤ (mkFresh N).user_capacity := by
    rw [liveList_mkFresh, hlen]
    show 0 + N ≤ N
    omega
  obtain ⟨r1, r2, r3, r4⟩ := pushResults_ok vs (mkFresh N) hi hle
  have hlen_live : (liveList (pushResults (mkFresh N) vs).2).length = N := by
    rw [r3, liveList_mkFresh, List.nil_append, hlen]
  have hfull : ((pushResults (mkFresh N) vs).2.tail + 1) %
      (pushResults (mkFresh N) vs).2.array_capacity = (pushResults (mkFresh N) vs).2.head := by
    apply (pq_len_full_iff (pushResults (mkFresh N) vs).2 r2).1
    rw [← length_liveList (pushResults (mkFresh N) vs).2 r2, hlen_live, r4]
    rfl
  obtain ⟨p1, p2, p3⟩ := push_full_st (pushResults (mkFresh N) vs).2 v r2.2.2.2.1 hfull
  exact ⟨by rw [r1, hlen], p1, p2⟩

theorem C1_capacity_witness :
    (pushResults (mkFresh 3) [some 1, some 2, some 3]).1 = List.replicate 3 0 ∧
    (pq_push (pushResults (mkFresh 3) [some 1, some 2, some 3]).2 (some 4)).rv = 1 ∧
    (pq_push (pushResults (mkFresh 3) [some 1, some 2, some 3]).2 (some 4)).err =
      some ENOMEM :=
  C1_capacity 3 (by decide) [some 1, some 2, some 3] (by decide) (some 4)

/-- C2: FIFO order.  For every serialized operation sequence from a
fresh queue, the successfully pushed values are the successfully popped
values (in order) followed by what is still live — so pops return
references in exactly push order.  In the concrete scenario
(`user_capacity = 10`): pushes of `1..10` all succeed, the ten pops
return `1,...,10` in that order, pushing `11` after the ten pushes
fails with queue-full, and an eleventh non-blocking pop returns the
`NULL` of an empty queue. -/
theorem C2_fifo (N : Nat) (hN : 0 < N) (ops : List Op) :
    (runTrace (mkFresh N) ops).pushes =
      (runTrace (mkFresh N) ops).pops ++ liveList (runTrace (mkFresh N) ops).st ∧
    (runTrace (mkFresh 10) ops10).pops =
      (List.range 10).map (fun i => (some (i + 1) : Ptr)) ∧
    (pq_push (runTrace (mkFresh 10) opsPush10).st (some 11)).rv = 1 ∧
    (pq_pop (runTrace (mkFresh 10) ops10).st false false).out = PopOutcome.ret none := by
  refine ⟨?_, by decide, by decide, by decide⟩
  have h := (runTrace_inv (mkFresh N) ops (inv_mkFresh N hN)).2
  rw [liveList_mkFresh, List.nil_append] at h
  exact h.symm

theorem C2_fifo_witness :
    (runTrace (mkFresh 1) [Op.push (some 5)]).pushes =
      (runTrace (mkFresh 1) [Op.push (some 5)]).pops ++
        liveList (runTrace (mkFresh 1) [Op.push (some 5)]).st ∧
    (runTrace (mkFresh 10) ops10).pops =
      (List.range 10).map (fun i => (some (i + 1) : Ptr)) ∧
    (pq_push (runTrace (mkFresh 10) opsPush10).st (some 11)).rv = 1 ∧
    (pq_pop (runTrace (mkFresh 10) ops10).st false false).out = PopOutcome.ret none :=
  C2_fifo 1 (by decide) [Op.push (some 5)]

/-- C3: conservation.  For every serialized operation sequence from a
fresh queue of user capacity `N`, `pq_len` of the final state equals the
number of successful pushes minus the number of successful pops, and
never exceeds `N`. -/
theorem C3_conservation (N : Nat) (hN : 0 < N) (ops : List Op) :
    pq_len (runTrace (mkFresh N) ops).st =
      (runTrace (mkFresh N) ops).pushes.length -
        (runTrace (mkFresh N) ops).pops.length ∧
    pq_len (runTrace (mkFresh N) ops).st ≤ N := by
  obtain ⟨hinv, heq⟩ := runTrace_inv (mkFresh N) ops (inv_mkFresh N hN)
  rw [liveList_mkFresh, List.nil_append] at heq
  have hlen := congrArg List.length heq
  rw [List.length_append] at hlen
  have hpl := length_liveList (runTrace (mkFresh N) ops).st hinv
  have hle := pq_len_le (runTrace (mkFresh N) ops).st hinv
  have huc : (runTrace (mkFresh N) ops).st.user_capacity = N := by
    rw [runTrace_uc]
    rfl
  exact ⟨by omega, by omega⟩

theorem C3_conservation_witness :
    pq_len (runTrace (mkFresh 2) [Op.push (some 7), Op.pop false false]).st =
      (runTrace (mkFresh 2) [Op.push (some 7), Op.pop false false]).pushes.length -
        (runTrace (mkFresh 2) [Op.push (some 7), Op.pop false false]).pops.length ∧
    pq_len (runTrace (mkFresh 2) [Op.push (some 7), Op.pop false false]).st ≤ 2 :=
  C3_conservation 2 (by decide) [Op.push (some 7), Op.pop false false]

/-- C4: `pq_len` computes exactly the three-case index formula of the
spec (`0` on `head == tail`, `tail - head` on `tail > head`,
`(array_capacity - head) + tail` on `tail < head`), for every state. -/
theorem C4_len_formula (pq : PtrQueue) : pq_len pq = spec_len pq := by
  unfold pq_len spec_len
  split_ifs <;> omega

/-- C5: `pq_push` computes `candidate = (tail + 1) mod array_capacity`;
when `candidate == head` it fails with queue-full (`rv = 1`,
`errno = ENOMEM`) and mutates nothing — the state is returned intact;
otherwise it stores the reference at the current `tail` slot, sets
`tail = candidate`, and leaves `head` unchanged.  The index hypothesis
`tail < array_capacity` is the data-model invariant of every reachable
state. -/
theorem C5_push_contract (pq : PtrQueue) (p : Ptr)
    (hlt : pq.tail < pq.array_capacity) :
    ((pq.tail + 1) % pq.array_capacity = pq.head →
      (pq_push pq p).rv = 1 ∧ (pq_push pq p).err = some ENOMEM ∧
      (pq_push pq p).st = pq) ∧
    ((pq.tail + 1) % pq.array_capacity ≠ pq.head →
      (pq_push pq p).rv = 0 ∧
      (pq_push pq p).st.data = pq.data.set pq.tail p ∧
      (pq_push pq p).st.tail = (pq.tail + 1) % pq.array_capacity ∧
      (pq_push pq p).st.head = pq.head) := by
  constructor
  · intro hf
    exact push_full_st pq p hlt hf
  · intro hf
    rw [pq_push_eq pq p hlt, if_neg hf]
    exact ⟨rfl, rfl, rfl, rfl⟩

theorem C5_push_contract_witness :
    (((mkFresh 1).tail + 1) % (mkFresh 1).array_capacity = (mkFresh 1).head →
      (pq_push (mkFresh 1) (some 9)).rv = 1 ∧
      (pq_push (mkFresh 1) (some 9)).err = some ENOMEM ∧
      (pq_push (mkFresh 1) (some 9)).st = mkFresh 1) ∧
    (((mkFresh 1).tail + 1) % (mkFresh 1).array_capacity ≠ (mkFresh 1).head →
      (pq_push (mkFresh 1) (some 9)).rv = 0 ∧
      (pq_push (mkFresh 1) (some 9)).st.data = (mkFresh 1).data.set (mkFresh 1).tail (some 9) ∧
      (pq_push (mkFresh 1) (some 9)).st.tail = ((mkFresh 1).tail + 1) % (mkFresh 1).array_capacity ∧
      (pq_push (mkFresh 1) (some 9)).st.head = (mkFresh 1).head) :=
  C5_push_contract (mkFresh 1) (some 9) (by decide)

end PtrQ

namespace PtrQ

/-- C6 exhibit: when the pool backing-region allocation fails
(`pq_init(4, 8)` with the third `calloc` failing), the code sets
`errno = ENOMEM` but returns the *non-NULL*, partially constructed
handle (`pq->buf` NULL, mutex and condition variable never initialized)
instead of unwinding and returning NULL as its own documentation
("Upon error, returns NULL and sets errno") and the spec require. -/
theorem C6_init_unwind_bug :
    (pq_init 4 8 true true false).err = some ENOMEM ∧
    (pq_init 4 8 true true false).ret ≠ none ∧
    (pq_init 4 8 true true false).ret = some (initialState 4) ∧
    (initialState 4).buf_alloc = false ∧
    (initialState 4).mtx_init = false :=
  ⟨rfl, by decide, rfl, rfl, rfl⟩

/-- C7 counterexample: the claim says the `WouldBlock` and `Empty`
failures of a non-blocking pop are distinct results observable by the
caller.  In the code both are the same `NULL` return: a contended
non-blocking pop on a queue holding one element returns exactly the
same outcome as a non-blocking pop of an empty queue. -/
theorem C7_pop_conflated_counterexample :
    (pq_pop (pq_push (mkFresh 2) (some 7)).st false true).out =
      (pq_pop (mkFresh 2) false false).out ∧
    (pq_pop (pq_push (mkFresh 2) (some 7)).st false true).out = PopOutcome.ret none ∧
    (pq_pop (mkFresh 2) false false).out = PopOutcome.ret none ∧
    pq_len (pq_push (mkFresh 2) (some 7)).st = 1 := by
  decide

/-- C7 amended: a non-blocking pop fails immediately on lock contention
without touching the queue, and fails immediately on an empty queue,
with no internal retry — but both failures return the same `NULL`
pointer (and set no `errno`), so the two causes are not distinguishable
by the caller at the interface. -/
theorem C7_pop_failure_returns (pq : PtrQueue) (he : pq.head = pq.tail) :
    (pq_pop pq false true).out = PopOutcome.ret none ∧
    (pq_pop pq false true).st = pq ∧
    (pq_pop pq false false).out = PopOutcome.ret none ∧
    (pq_pop pq false false).st = pq ∧
    (pq_pop pq false true).out = (pq_pop pq false false).out := by
  obtain ⟨h2, h3⟩ := pop_empty_out pq he
  have h1 : pq_pop pq false true = { out := PopOutcome.ret none, st := pq } := by
    simp [pq_pop]
  rw [h1]
  exact ⟨rfl, rfl, h2, h3, h2.symm⟩

theorem C7_pop_failure_returns_witness :
    (pq_pop (mkFresh 2) false true).out = PopOutcome.ret none ∧
    (pq_pop (mkFresh 2) false true).st = mkFresh 2 ∧
    (pq_pop (mkFresh 2) false false).out = PopOutcome.ret none ∧
    (pq_pop (mkFresh 2) false false).st = mkFresh 2 ∧
    (pq_pop (mkFresh 2) false true).out = (pq_pop (mkFresh 2) false false).out :=
  C7_pop_failure_returns (mkFresh 2) (by decide)

/-- C8: pool mode.  `pq_init(N, s)` with `s > 0` (all allocations
succeeding) returns a handle whose length is `N`; `N` consecutive
non-blocking pops return the `N` object addresses `buf + i*s`
(modelled as the offsets `i*s`) in order — pairwise distinct, non-NULL,
and inside the `N*s`-byte backing region — and the `(N+1)`-th
non-blocking pop returns the empty-queue `NULL`. -/
theorem C8_pool (N s : Nat) (hN : 0 < N) (hs : 0 < s) :
    ∃ pq1 : PtrQueue,
      pq_init N s true true true = { ret := some pq1, err := none } ∧
      pq_len pq1 = N ∧
      (popResults pq1 N).1 =
        (List.range N).map (fun i => PopOutcome.ret (some (i * s))) ∧
      (popResults pq1 N).1.Nodup ∧
      (∀ o ∈ (popResults pq1 N).1,
        ∃ off, o = PopOutcome.ret (some off) ∧ off < N * s) ∧
      (pq_pop (popResults pq1 N).2 false false).out = PopOutcome.ret none := by
  have hN0 : N ≠ 0 := by omega
  have hinit : pq_init N s true true true =
      { ret := some { poolFill { initialState N with buf_alloc := true } N s with
                        mtx_init := true },
        err := none } := by
    simp [pq_init, hN0, hs]
  have hiS0 : Inv { initialState N with buf_alloc := true } := by
    refine ⟨rfl, hN, Nat.succ_pos N, Nat.succ_pos N, ?_⟩
    simp [initialState]
  have hlS0 : liveList { initialState N with buf_alloc := true } = [] := by
    simp [liveList, initialState]
  obtain ⟨r1, r2, r3, r4⟩ :=
    pushResults_ok ((List.range N).map (fun i => (some (i * s) : Ptr)))
      { initialState N with buf_alloc := true } hiS0 (by rw [hlS0]; simp [initialState])
  have hpf : poolFill { initialState N with buf_alloc := true } N s =
      (pushResults { initialState N with buf_alloc := true }
        ((List.range N).map (fun i => (some (i * s) : Ptr)))).2 :=
    poolFill_eq_pushResults s (List.range N) { initialState N with buf_alloc := true }
  have hinvQ : Inv { poolFill { initialState N with buf_alloc := true } N s with
      mtx_init := true } := by
    show Inv (poolFill { initialState N with buf_alloc := true } N s)
    rw [hpf]
    exact r2
  have hliveQ : liveList { poolFill { initialState N with buf_alloc := true } N s with
      mtx_init := true } = (List.range N).map (fun i => (some (i * s) : Ptr)) := by
    show liveList (poolFill { initialState N with buf_alloc := true } N s) = _
    rw [hpf, r3, hlS0, List.nil_append]
  obtain ⟨p1, p2, p3⟩ :=
    popResults_ok N { poolFill { initialState N with buf_alloc := true } N s with
      mtx_init := true } hinvQ (by rw [hliveQ]; simp)
  have houts : (popResults { poolFill { initialState N with buf_alloc := true } N s with
      mtx_init := true } N).1 =
      (List.range N).map (fun i => PopOutcome.ret (some (i * s))) := by
    rw [p1, hliveQ, List.map_map]
    rfl
  refine ⟨{ poolFill { initialState N with buf_alloc := true } N s with mtx_init := true },
    hinit, ?_, houts, ?_, ?_, ?_⟩
  · rw [← length_liveList _ hinvQ, hliveQ]
    simp
  · rw [houts]
    refine List.Nodup.map ?_ (List.nodup_range N)
    intro a b hab
    simp only [PopOutcome.ret.injEq, Option.some.injEq] at hab
    exact Nat.eq_of_mul_eq_mul_right hs hab
  · intro o ho
    rw [houts] at ho
    obtain ⟨i, hi, rfl⟩ := List.mem_map.mp ho
    exact ⟨i * s, rfl, (Nat.mul_lt_mul_right hs).mpr (List.mem_range.mp hi)⟩
  · exact (pop_empty_out _ ((liveList_nil_iff _ p2).mp p3)).1

theorem C8_pool_witness :
    ∃ pq1 : PtrQueue,
      pq_init 2 3 true true true = { ret := some pq1, err := none } ∧
      pq_len pq1 = 2 ∧
      (popResults pq1 2).1 =
        (List.range 2).map (fun i => PopOutcome.ret (some (i * 3))) ∧
      (popResults pq1 2).1.Nodup ∧
      (∀ o ∈ (popResults pq1 2).1,
        ∃ off, o = PopOutcome.ret (some off) ∧ off < 2 * 3) ∧
      (pq_pop (popResults pq1 2).2 false false).out = PopOutcome.ret none :=
  C8_pool 2 3 (by decide) (by decide)

/-- C9: the state invariants hold initially and are preserved by every
operation: both indices stay strictly below `array_capacity`, the queue
is empty (`pq_len = 0`, `pq_empty = 1`) exactly when `head == tail`, and
the queue is full (`pq_len = user_capacity`) exactly when
`(tail + 1) mod array_capacity == head`. -/
theorem C9_invariants (pq : PtrQueue) (p : Ptr) (w c : Bool) (N : Nat)
    (h : Inv pq) (hN : 0 < N) :
    Inv (mkFresh N) ∧
    Inv (pq_push pq p).st ∧
    Inv (pq_pop pq w c).st ∧
    (pq.head < pq.array_capacity ∧ pq.tail < pq.array_capacity) ∧
    (pq_len pq = 0 ↔ pq.head = pq.tail) ∧
    (pq_empty pq = 1 ↔ pq.head = pq.tail) ∧
    (pq_len pq = pq.user_capacity ↔ (pq.tail + 1) % pq.array_capacity = pq.head) := by
  refine ⟨inv_mkFresh N hN, inv_push pq p h, inv_pop pq w c h,
    ⟨h.2.2.1, h.2.2.2.1⟩, pq_len_zero_iff pq h, ?_, pq_len_full_iff pq h⟩
  unfold pq_empty
  split_ifs with he <;> simp [he]

theorem C9_invariants_witness :
    Inv (mkFresh 1) ∧
    Inv (pq_push (mkFresh 2) (some 5)).st ∧
    Inv (pq_pop (mkFresh 2) false false).st ∧
    ((mkFresh 2).head < (mkFresh 2).array_capacity ∧
      (mkFresh 2).tail < (mkFresh 2).array_capacity) ∧
    (pq_len (mkFresh 2) = 0 ↔ (mkFresh 2).head = (mkFresh 2).tail) ∧
    (pq_empty (mkFresh 2) = 1 ↔ (mkFresh 2).head = (mkFresh 2).tail) ∧
    (pq_len (mkFresh 2) = (mkFresh 2).user_capacity ↔
      ((mkFresh 2).tail + 1) % (mkFresh 2).array_capacity = (mkFresh 2).head) :=
  C9_invariants (mkFresh 2) (some 5) false false 1 (by decide) (by decide)

/-- C10 (implicit behaviour): pushing the `NULL` reference onto a
non-full queue succeeds (`rv = 0`); the pop that later dequeues it (after
the entries ahead of it are drained) returns `NULL` — the very value a
non-blocking pop returns for its `Empty` failure (on the then-empty
queue) and its `WouldBlock` failure (contended trylock) — so for this
input a successful pop is indistinguishable at the interface from a
failed one. -/
theorem C10_null_indistinguishable (pq : PtrQueue) (h : Inv pq)
    (hnf : (pq.tail + 1) % pq.array_capacity ≠ pq.head) :
    (pq_push pq none).rv = 0 ∧
    ((popResults (pq_push pq none).st (pq_len pq + 1)).1).getLast? =
      some (PopOutcome.ret none) ∧
    (pq_pop (popResults (pq_push pq none).st (pq_len pq + 1)).2 false false).out =
      PopOutcome.ret none ∧
    (pq_pop pq false true).out = PopOutcome.ret none := by
  have hrv : (pq_push pq none).rv = 0 := by
    rw [pq_push_eq pq none h.2.2.2.1, if_neg hnf]
  have hlive := push_liveList pq none h hrv
  have hinv := inv_push pq none h
  have hlen : (liveList (pq_push pq none).st).length = pq_len pq + 1 := by
    rw [hlive, List.length_append, List.length_singleton, length_liveList pq h]
  obtain ⟨o1, o2, o3⟩ := popResults_ok (pq_len pq + 1) (pq_push pq none).st hinv hlen
  refine ⟨hrv, ?_, ?_, by simp [pq_pop]⟩
  · rw [o1, hlive, List.map_append]
    exact List.getLast?_concat _
  · exact (pop_empty_out _ ((liveList_nil_iff _ o2).mp o3)).1

theorem C10_null_indistinguishable_witness :
    (pq_push (mkFresh 1) none).rv = 0 ∧
    ((popResults (pq_push (mkFresh 1) none).st (pq_len (mkFresh 1) + 1)).1).getLast? =
      some (PopOutcome.ret none) ∧
    (pq_pop (popResults (pq_push (mkFresh 1) none).st (pq_len (mkFresh 1) + 1)).2
      false false).out = PopOutcome.ret none ∧
    (pq_pop (mkFresh 1) false true).out = PopOutcome.ret none :=
  C10_null_indistinguishable (mkFresh 1) (by decide) (by decide)

end PtrQ
